import Mathlib

/-!
Verification development for the query-types generator
(src/graphql_sdk_gen/generators/query_types.py).

The generator is embedded shallowly: Python `ast` annotation expressions become the
mutual inductive `Ann`/`AnnList`; GraphQL selection nodes become `Selection`;
exceptions become `Except GenError`; the mutable generator attributes
(`public_names`, `class_defs`, `used_enums`, `used_fragments_names`) become the
record `GenState`, threaded explicitly.  Recursion through fragment tables and
nested selection sets is not structurally decreasing in Python (a cyclic fragment
table diverges), so the embedding is fueled: a `Nat` bound on recursion depth,
standing for Python's recursion limit; `GenError.fuelExhausted` marks the cases
where Python would exhaust its stack.  Every definition is structurally
recursive, hence computable by the kernel.

Source-position metadata (the `lineno` arguments of the Python code) is
serialization metadata with no semantic content and is omitted.

The sibling modules `codegen`, `constants`, and `schema_types` are not part of
src/; the few values taken from them are modelled from the spec and marked
`Modelled from the spec:` in their doc comments.
-/

/-- Modelled from the spec: the Class-Kind Registry classification
(`ClassType` in schema_types.py, absent from src/):
typeName -> kind in OBJECT, INTERFACE, ENUM, UNION, SCALAR, INPUT. -/
inductive ClassType where
  | object
  | interface
  | enum
  | union
  | scalar
  | input
deriving DecidableEq, Repr

/-- Errors of the generator.  `notSupported` and `parsingError` embed the
repository's NotSupported and ParsingError exceptions; `keyError` and
`attributeError` embed the built-in Python exceptions a failed dict lookup or a
missing attribute would raise; `fuelExhausted` is the embedding's stand-in for
Python's recursion limit. -/
inductive GenError where
  | notSupported (msg : String)
  | parsingError (msg : String)
  | keyError
  | attributeError
  | fuelExhausted
deriving DecidableEq, Repr

mutual
/-- Embedding of the subset of Python `ast` expressions the generator walks:
`name id` is `ast.Name(id)`; `subscriptTuple v elts` is `ast.Subscript` whose
slice is an `ast.Tuple`; `subscriptExpr v s` is `ast.Subscript` with any other
slice expression; `other` is any further `ast` expression kind. -/
inductive Ann where
  | name (id : String)
  | subscriptTuple (value : Ann) (elts : AnnList)
  | subscriptExpr (value : Ann) (slice : Ann)
  | other
deriving DecidableEq, Repr
/-- List of `Ann` (a separate inductive so that structural recursion and
derived instances work over the mutual pair). -/
inductive AnnList where
  | nil
  | cons (head : Ann) (tail : AnnList)
deriving DecidableEq, Repr
end

/-- Embedding of Python `s.replace('"', "")`: removes every double-quote
character from the string. -/
def stripQuotes (s : String) : String := ⟨s.data.filter (fun c => c ≠ '"')⟩

/-- Embedding of Python `s.startswith('"') and s.endswith('"')`. -/
def quotedName (s : String) : Bool :=
  s.data.head? == some '"' && s.data.getLast? == some '"'

mutual
/-- Embedding of `QueryTypesGenerator._walk_annotation`
(query_types.py lines 201-213): collects the underlying type names of an
annotation expression, stripping forward-reference quotes; returns `[]` for any
other expression kind. -/
def walkAnn : Ann → List String
  | .name id => [stripQuotes id]
  | .subscriptTuple _ elts => walkAnnList elts
  | .subscriptExpr _ s => walkAnn s
  | .other => []

/-- Embedding of the `ast.Tuple` branch of `_walk_annotation`: the chained walk
over the tuple's elements. -/
def walkAnnList : AnnList → List String
  | .nil => []
  | .cons a rest => walkAnn a ++ walkAnnList rest
end

mutual
/-- Embedding of `QueryTypesGenerator._add_prefix_to_annotation`
(query_types.py lines 215-238).  A quoted `ast.Name` gets the operation name
inserted after the opening quote; an unquoted `ast.Name` falls through both
`isinstance` checks and raises `ParsingError("Invalid annotation type.")`; a
subscript keeps its head expression and recurses into its slice; everything
else raises. -/
def addPrefixToAnn : Ann → String → Except GenError Ann
  | .name id, pfx =>
    if quotedName id then
      .ok (.name ("\"" ++ pfx ++ stripQuotes id ++ "\""))
    else
      .error (.parsingError "Invalid annotation type.")
  | .subscriptTuple v elts, pfx =>
    match addPrefixToAnnList elts pfx with
    | .error e => .error e
    | .ok elts2 => .ok (.subscriptTuple v elts2)
  | .subscriptExpr v s, pfx =>
    match addPrefixToAnn s pfx with
    | .error e => .error e
    | .ok s2 => .ok (.subscriptExpr v s2)
  | .other, _ => .error (.parsingError "Invalid annotation type.")
/-- The list comprehension inside the `ast.Tuple` branch of
`_add_prefix_to_annotation`; the first raised exception propagates. -/
def addPrefixToAnnList : AnnList → String → Except GenError AnnList
  | .nil, _ => .ok .nil
  | .cons a rest, pfx =>
    match addPrefixToAnn a pfx with
    | .error e => .error e
    | .ok a2 =>
      match addPrefixToAnnList rest pfx with
      | .error e => .error e
      | .ok rest2 => .ok (.cons a2 rest2)
end

/-- Embedding of the membership test
`class_types.get(n) in (ClassType.OBJECT, ClassType.INTERFACE)`. -/
def isObjectOrInterface (class_types : String → Option ClassType) (n : String) : Bool :=
  class_types n == some .object || class_types n == some .interface

/-- Embedding of `QueryTypesGenerator._procces_annotation`
(query_types.py lines 182-199).  `ftns` is the caller-computed
`field_type_names` list; `used_enums` is the accumulator attribute
`self.used_enums` (a Python list: appends keep duplicates). -/
def proccesAnn (class_types : String → Option ClassType) (qn : String) (ann : Ann)
    (ftns : List String) (used_enums : List String) :
    Except GenError (Ann × List String) :=
  if ftns.any (isObjectOrInterface class_types) then
    match addPrefixToAnn ann qn with
    | .error e => .error e
    | .ok a => .ok (a, used_enums)
  else
    .ok (ann, used_enums ++ ftns.filter (fun n => class_types n == some ClassType.enum))

/-- Embedding of the GraphQL selection nodes the resolver dispatches on
(query_types.py lines 162-180): `field name ss` is a `FieldNode` (its
`selection_set` attribute is `None` or a node, hence the `Option`);
`fragmentSpread name` is a `FragmentSpreadNode`; `inlineFragment tc ss` is an
`InlineFragmentNode` with type condition `tc` (per the spec's data model an
inline fragment carries a type condition, and GraphQL type-condition names are
non-empty). -/
inductive Selection where
  | field (name : String) (selectionSet : Option (List Selection))
  | fragmentSpread (name : String)
  | inlineFragment (typeCondition : String) (selectionSet : List Selection)

/-- Embedding of a `FragmentDefinitionNode` as stored in
`fragments_definitions`: its type condition and its selection set (its name is
the table key). -/
structure FragmentDef where
  typeCondition : String
  selectionSet : List Selection

/-- Embedding of `self.used_fragments_names.add(n)`: the Python attribute is a
set, represented here as a duplicate-free list; membership is the observable. -/
def addUsedName (used : List String) (n : String) : List String :=
  if n ∈ used then used else used ++ [n]

/-- One pass of `QueryTypesGenerator._resolve_selection_set`
(query_types.py lines 162-180) over the selections of one selection set, with
the recursive descent into fragment bodies and matching inline fragments
abstracted as the function argument `rec` (instantiated by `resolveSS` with the
next-lower fuel).  A `FieldNode` is appended as is; a `FragmentSpreadNode`
first records its name in the used-fragments set, then looks its definition up
(`KeyError` if absent) and splices in the resolution of the fragment's
selection set; an `InlineFragmentNode` is resolved recursively only when its
type condition equals `root`, and is skipped entirely otherwise. -/
def resolveStep (frags : String → Option FragmentDef) (root : String)
    (rec : List Selection → List String → Except GenError (List Selection × List String)) :
    List Selection → List String → Except GenError (List Selection × List String)
  | [], used => .ok ([], used)
  | .field n ss :: rest, used =>
    match resolveStep frags root rec rest used with
    | .error e => .error e
    | .ok (fs, u) => .ok (.field n ss :: fs, u)
  | .fragmentSpread n :: rest, used =>
    let used1 := addUsedName used n
    match frags n with
    | none => .error .keyError
    | some fd =>
      match rec fd.selectionSet used1 with
      | .error e => .error e
      | .ok (fs1, u1) =>
        match resolveStep frags root rec rest u1 with
        | .error e => .error e
        | .ok (fs2, u2) => .ok (fs1 ++ fs2, u2)
  | .inlineFragment c ss :: rest, used =>
    if c = root then
      match rec ss used with
      | .error e => .error e
      | .ok (fs1, u1) =>
        match resolveStep frags root rec rest u1 with
        | .error e => .error e
        | .ok (fs2, u2) => .ok (fs1 ++ fs2, u2)
    else
      resolveStep frags root rec rest used

/-- Embedding of `QueryTypesGenerator._resolve_selection_set`, fueled on the
depth of recursive descents (fragment bodies and matching inline fragments);
at depth zero any further descent reports `fuelExhausted`, the embedding's
image of Python's recursion limit. -/
def resolveSS (frags : String → Option FragmentDef) (root : String) :
    Nat → List Selection → List String → Except GenError (List Selection × List String)
  | 0, ss, used => resolveStep frags root (fun _ _ => .error .fuelExhausted) ss used
  | fuel + 1, ss, used => resolveStep frags root (resolveSS frags root fuel) ss used

/-- Embedding of an output field declaration (`ast.AnnAssign`): target name,
annotation expression, and optional default-value expression (kept opaque as
its rendered text). -/
structure FieldDef where
  target : String
  ann : Ann
  value : Option String
deriving DecidableEq, Repr

/-- Embedding of a generated class definition (`generate_class_def(name,
["BaseModel"])` plus the appended field declarations). -/
structure ClassDef where
  name : String
  bases : List String
  body : List FieldDef
deriving DecidableEq, Repr

/-- Embedding of an `ast.ImportFrom` statement (names, module, relative-import
level). -/
structure ImportFrom where
  names : List String
  modName : String
  level : Nat
deriving DecidableEq, Repr

/-- Statements of the emitted module body: imports, class definitions, and the
trailing `Name.update_forward_refs()` expression calls
(`generate_expr(generate_method_call(name, "update_forward_refs"))`). -/
inductive Stmt where
  | fromImport (i : ImportFrom)
  | classDef (c : ClassDef)
  | updateForwardRefs (className : String)
deriving DecidableEq, Repr

/-- The mutable attributes of `QueryTypesGenerator` threaded through the
generation pass: `self.public_names`, `self.class_defs`, `self.used_enums`
(a list, in append order, duplicates kept) and `self.used_fragments_names`
(a set, represented as a duplicate-free list). -/
structure GenState where
  public_names : List String
  class_defs : List ClassDef
  used_enums : List String
  used_fragments_names : List String
deriving DecidableEq, Repr

/-- Modelled from the spec: `generate_typename_field_definition` lives in the
codegen module, which is absent from src/.  Per the spec, the `__typename`
meta-field is special-cased to a synthesized, string-typed field definition
rather than a registry lookup. -/
def generate_typename_field_definition : FieldDef :=
  { target := "__typename", ann := .name "str", value := none }

/-- Embedding of `QueryTypesGenerator._get_schema_field_definition`
(query_types.py lines 155-160): the literal field name `__typename` yields the
synthesized definition without consulting the registry; any other name is the
two-level dict lookup `self.fields[type_name][field_name]`, raising `KeyError`
when either level is absent. -/
def get_schema_field_definition (fields : String → Option (String → Option FieldDef))
    (type_name field_name : String) : Except GenError FieldDef :=
  if field_name = "__typename" then
    .ok generate_typename_field_definition
  else
    match fields type_name with
    | none => .error .keyError
    | some m =>
      match m field_name with
      | none => .error .keyError
      | some fd => .ok fd

/-- Embedding of `graphql.OperationType` (the generator distinguishes QUERY
and MUTATION; any other kind falls through both lookups). -/
inductive OperationType where
  | query
  | mutation
  | subscription
deriving DecidableEq, Repr

/-- Modelled from the spec: the schema handle exposes, per operation kind, a
field-name to field-type lookup at the root (spec section 6).  The codegen
helper `parse_field_type`, absent from src/, converts the looked-up
`GraphQLField.type` into an annotation expression; the composition of lookup
and conversion is modelled as a lookup yielding the resolved type expression
directly. -/
structure Schema where
  queryType : Option (String → Option Ann)
  mutationType : Option (String → Option Ann)

/-- Embedding of an `OperationDefinitionNode`: optional name, operation kind,
and root selection set. -/
structure Operation where
  name : Option String
  operation : OperationType
  selectionSet : List Selection

/-- Embedding of `QueryTypesGenerator._get_field_type_from_schema`
(query_types.py lines 99-112): the query-root lookup applies only to QUERY
operations with a present query type; then the mutation-root lookup only to
MUTATION operations with a present mutation type; otherwise
`ParsingError(f"Definition for {name} not found in schema.")`. -/
def get_field_type_from_schema (schema : Schema) (op : OperationType) (name : String) :
    Except GenError Ann :=
  let qres : Option Ann :=
    match op, schema.queryType with
    | .query, some qt => qt name
    | _, _ => none
  match qres with
  | some t => .ok t
  | none =>
    let mres : Option Ann :=
      match op, schema.mutationType with
      | .mutation, some mt => mt name
      | _, _ => none
    match mres with
    | some t => .ok t
    | none => .error (.parsingError ("Definition for " ++ name ++ " not found in schema."))

/-- The read-only inputs of one `QueryTypesGenerator` instance, as passed to
`__init__` (query_types.py lines 31-50): schema handle, Schema Field Registry,
Class-Kind Registry, the operation, the enum module reference, the fragment
table, and the optional base-model import override (typed `ast.ImportFrom` in
the source). -/
structure GenEnv where
  schema : Schema
  fields : String → Option (String → Option FieldDef)
  class_types : String → Option ClassType
  query : Operation
  enums_module_name : String
  fragments_definitions : String → Option FragmentDef
  base_model_import : Option ImportFrom

/-- The inner loop `for field_type_name in field_type_names:` of
`_parse_query` (query_types.py lines 89-95) and of
`_generate_dependency_type_class` (lines 144-151), with the recursive call to
`_generate_dependency_type_class` abstracted as `g`.  A `None` return
(`if dependencies_defs:`) contributes nothing; a returned list is spliced into
the accumulated dependency definitions. -/
def depLoopF
    (g : String → List Selection → GenState → Except GenError (Option (List ClassDef) × GenState)) :
    List String → List Selection → GenState → Except GenError (List ClassDef × GenState)
  | [], _, st => .ok ([], st)
  | tn :: rest, sub, st =>
    match g tn sub st with
    | .error e => .error e
    | .ok (res, st1) =>
      match depLoopF g rest sub st1 with
      | .error e => .error e
      | .ok (extras, st2) => .ok (res.getD [] ++ extras, st2)

/-- The field loop of `_generate_dependency_type_class`
(query_types.py lines 121-151) over the resolved field selections of one
dependency class, with the recursive call abstracted as `g`: look the field's
definition up (`_get_schema_field_definition`), walk and process its
annotation, emit the rebuilt `ast.AnnAssign` (original target and default,
processed annotation), and, when the selection carries a nested selection set,
run the dependency loop over the extracted type names.  The resolver returns
only `FieldNode`s; on any other node kind the Python attribute accesses would
raise `AttributeError` (unreachable branches). -/
def genFieldsF (fields : String → Option (String → Option FieldDef))
    (class_types : String → Option ClassType) (qn : String)
    (g : String → List Selection → GenState → Except GenError (Option (List ClassDef) × GenState))
    (type_name : String) :
    List Selection → GenState → Except GenError (List FieldDef × List ClassDef × GenState)
  | [], st => .ok ([], [], st)
  | .field n ss :: rest, st =>
    match get_schema_field_definition fields type_name n with
    | .error e => .error e
    | .ok orig =>
      let ftns := walkAnn orig.ann
      match proccesAnn class_types qn orig.ann ftns st.used_enums with
      | .error e => .error e
      | .ok (ann2, enums2) =>
        let fd : FieldDef := { target := orig.target, ann := ann2, value := orig.value }
        let st1 := { st with used_enums := enums2 }
        match ss with
        | none =>
          match genFieldsF fields class_types qn g type_name rest st1 with
          | .error e => .error e
          | .ok (body, extras, st2) => .ok (fd :: body, extras, st2)
        | some sub =>
          match depLoopF g ftns sub st1 with
          | .error e => .error e
          | .ok (ex1, st2) =>
            match genFieldsF fields class_types qn g type_name rest st2 with
            | .error e => .error e
            | .ok (body, ex2, st3) => .ok (fd :: body, ex1 ++ ex2, st3)
  | .fragmentSpread _ :: _, _ => .error .attributeError
  | .inlineFragment _ _ :: _, _ => .error .attributeError

/-- Embedding of `QueryTypesGenerator._generate_dependency_type_class`
(query_types.py lines 114-153), fueled on nesting depth.  The candidate name
`query_name + type_name` is checked against `public_names` first: if already
registered the call returns `None` with the state untouched; otherwise the name
is registered, the selection set is resolved against `type_name` as root, and
the field loop builds the class body and the recursively synthesized
dependency classes, returned as `[class_def] + extra_defs`. -/
def genDep (frags : String → Option FragmentDef)
    (fields : String → Option (String → Option FieldDef))
    (class_types : String → Option ClassType) (qn : String) :
    Nat → String → List Selection → GenState → Except GenError (Option (List ClassDef) × GenState)
  | 0, type_name, _, st =>
    if qn ++ type_name ∈ st.public_names then .ok (none, st) else .error .fuelExhausted
  | fuel + 1, type_name, selection_set, st =>
    let name := qn ++ type_name
    if name ∈ st.public_names then .ok (none, st)
    else
      let st1 := { st with public_names := st.public_names ++ [name] }
      match resolveSS frags type_name (fuel + 1) selection_set st1.used_fragments_names with
      | .error e => .error e
      | .ok (rfields, uf) =>
        match genFieldsF fields class_types qn (genDep frags fields class_types qn fuel)
            type_name rfields { st1 with used_fragments_names := uf } with
        | .error e => .error e
        | .ok (body, extras, st2) =>
          .ok (some ({ name := name, bases := ["BaseModel"], body := body } :: extras), st2)

/-- The field loop of `_parse_query` (query_types.py lines 75-95) over the
resolved root field selections, with the dependency synthesizer abstracted as
`g`: the field's type comes from the schema root
(`_get_field_type_from_schema`), the declaration is a fresh `ast.AnnAssign`
(`generate_ann_assign`: target is the selected field name, no default), and a
nested selection set triggers the dependency loop.  As in `genFieldsF`, the
non-`FieldNode` branches are unreachable. -/
def rootFieldsLoop (schema : Schema) (op : OperationType)
    (class_types : String → Option ClassType) (qn : String)
    (g : String → List Selection → GenState → Except GenError (Option (List ClassDef) × GenState)) :
    List Selection → GenState → Except GenError (List FieldDef × List ClassDef × GenState)
  | [], st => .ok ([], [], st)
  | .field n ss :: rest, st =>
    match get_field_type_from_schema schema op n with
    | .error e => .error e
    | .ok t =>
      let ftns := walkAnn t
      match proccesAnn class_types qn t ftns st.used_enums with
      | .error e => .error e
      | .ok (ann2, enums2) =>
        let fd : FieldDef := { target := n, ann := ann2, value := none }
        let st1 := { st with used_enums := enums2 }
        match ss with
        | none =>
          match rootFieldsLoop schema op class_types qn g rest st1 with
          | .error e => .error e
          | .ok (body, extras, st2) => .ok (fd :: body, extras, st2)
        | some sub =>
          match depLoopF g ftns sub st1 with
          | .error e => .error e
          | .ok (ex1, st2) =>
            match rootFieldsLoop schema op class_types qn g rest st2 with
            | .error e => .error e
            | .ok (body, ex2, st3) => .ok (fd :: body, ex1 ++ ex2, st3)
  | .fragmentSpread _ :: _, _ => .error .attributeError
  | .inlineFragment _ _ :: _, _ => .error .attributeError

/-- Embedding of `QueryTypesGenerator._parse_query`
(query_types.py lines 70-97): the root class definition named exactly
`query_name` is registered first; the operation's root selection set is
resolved with the default root type, the empty string; the root field loop
builds the root class body and the dependency classes; finally
`self.class_defs` is the root class followed by the accumulated
dependency classes. -/
def parse_query (env : GenEnv) (qn : String) (fuel : Nat) : Except GenError GenState :=
  let st0 : GenState :=
    { public_names := [qn], class_defs := [], used_enums := [], used_fragments_names := [] }
  match resolveSS env.fragments_definitions "" fuel env.query.selectionSet
      st0.used_fragments_names with
  | .error e => .error e
  | .ok (rfields, uf) =>
    match rootFieldsLoop env.schema env.query.operation env.class_types qn
        (genDep env.fragments_definitions env.fields env.class_types qn fuel)
        rfields { st0 with used_fragments_names := uf } with
    | .error e => .error e
    | .ok (body, extras, st1) =>
      .ok { st1 with
            class_defs := { name := qn, bases := ["BaseModel"], body := body } :: extras }

/-- Embedding of `QueryTypesGenerator.__init__` (query_types.py lines 31-68):
an operation without a name raises
`NotSupported("Queries without name are not supported.")` before anything is
generated; otherwise `_parse_query` runs and yields the generator state. -/
def mkGenerator (env : GenEnv) (fuel : Nat) : Except GenError GenState :=
  match env.query.name with
  | none => .error (.notSupported "Queries without name are not supported.")
  | some qn => parse_query env qn fuel

/-- Embedding of the unconditional imports assembled in `__init__`
(query_types.py lines 57-61): the typing support names (the codegen constants
OPTIONAL and UNION), the pydantic `Field` helper, and the base-model import
(`base_model_import or generate_import_from(["BaseModel"], "pydantic")`). -/
def baseImports (env : GenEnv) : List ImportFrom :=
  [ { names := ["Optional", "Union"], modName := "typing", level := 0 },
    { names := ["Field"], modName := "pydantic", level := 0 },
    env.base_model_import.getD { names := ["BaseModel"], modName := "pydantic", level := 0 } ]

/-- Embedding of `QueryTypesGenerator.generate` (query_types.py lines
240-255): when `used_enums` is non-empty, a level-1 import listing
`self.used_enums` from the enums module is appended to the imports; the module
body is the imports, then every class definition in order, then one
`update_forward_refs()` call per class definition, in the same order. -/
def generate (env : GenEnv) (st : GenState) : List Stmt :=
  let imports := baseImports env ++
    (if st.used_enums.isEmpty then []
     else [{ names := st.used_enums, modName := env.enums_module_name, level := 1 }])
  imports.map Stmt.fromImport ++ st.class_defs.map Stmt.classDef ++
    st.class_defs.map (fun c => Stmt.updateForwardRefs c.name)

mutual
/-- Statement of the spec's rewriting rule, following the spec's words rather
than the source, for comparison against `addPrefixToAnn`: every named-type
leaf is rewritten to the operation name prefixed to the original name,
preserving forward-reference quoting, and the optional/list/union wrapper
structure is left unchanged. -/
def specRewriteAnn (pfx : String) : Ann → Ann
  | .name id =>
    if quotedName id then .name ("\"" ++ pfx ++ stripQuotes id ++ "\"")
    else .name (pfx ++ id)
  | .subscriptTuple v elts => .subscriptTuple v (specRewriteAnnList pfx elts)
  | .subscriptExpr v s => .subscriptExpr v (specRewriteAnn pfx s)
  | .other => .other
/-- The element-wise extension of `specRewriteAnn` to tuple slices. -/
def specRewriteAnnList (pfx : String) : AnnList → AnnList
  | .nil => .nil
  | .cons a rest => .cons (specRewriteAnn pfx a) (specRewriteAnnList pfx rest)
end

mutual
/-- Decides whether an annotation expression stays within the supported
shapes and every named-type leaf in it carries forward-reference quotes. -/
def allLeavesQuoted : Ann → Bool
  | .name id => quotedName id
  | .subscriptTuple _ elts => allLeavesQuotedList elts
  | .subscriptExpr _ s => allLeavesQuoted s
  | .other => false
/-- The element-wise extension of `allLeavesQuoted` to tuple slices. -/
def allLeavesQuotedList : AnnList → Bool
  | .nil => true
  | .cons a rest => allLeavesQuoted a && allLeavesQuotedList rest
end

/-- Names of the class definitions returned by one dependency-synthesizer
call: none for a skipped (already registered) name, the definition names in
order otherwise. -/
def depNames : Option (List ClassDef) → List String
  | none => []
  | some ds => ds.map (fun c => c.name)

/-- Fixture: the Schema Field Registry of the spec's running example
(User with id, name, address; Address with city). -/
def exFields : String → Option (String → Option FieldDef) := fun tn =>
  if tn = "User" then some (fun fn =>
    if fn = "id" then some ⟨"id", .name "str", none⟩
    else if fn = "name" then some ⟨"name", .name "str", none⟩
    else if fn = "address" then
      some ⟨"address", .subscriptExpr (.name "Optional") (.name "\"Address\""), some "None"⟩
    else none)
  else if tn = "Address" then some (fun fn =>
    if fn = "city" then some ⟨"city", .name "str", none⟩
    else none)
  else none

/-- Fixture: Class-Kind Registry classifying User and Address as OBJECT. -/
def exCT : String → Option ClassType := fun n =>
  if n = "User" then some .object else if n = "Address" then some .object else none

/-- Fixture: schema root with the single query field user of type
Optional["User"]. -/
def exSchema : Schema :=
  ⟨some (fun n =>
    if n = "user" then some (.subscriptExpr (.name "Optional") (.name "\"User\"")) else none),
   none⟩

/-- Fixture: the operation query GetUser with selection
user with id, name, address with city. -/
def exQuery : Operation :=
  ⟨some "GetUser", .query,
   [.field "user" (some [.field "id" none, .field "name" none,
     .field "address" (some [.field "city" none])])]⟩

/-- Fixture: the full generator input of the running example. -/
def exEnv : GenEnv :=
  ⟨exSchema, exFields, exCT, exQuery, "enums", fun _ => none, none⟩

/-- Fixture: the generator state produced by running `mkGenerator` on
`exEnv`. -/
def stEx : GenState :=
  ⟨["GetUser", "GetUserUser", "GetUserAddress"],
   [⟨"GetUser", ["BaseModel"],
      [⟨"user", .subscriptExpr (.name "Optional") (.name "\"GetUserUser\""), none⟩]⟩,
    ⟨"GetUserUser", ["BaseModel"],
      [⟨"id", .name "str", none⟩, ⟨"name", .name "str", none⟩,
       ⟨"address", .subscriptExpr (.name "Optional") (.name "\"GetUserAddress\""), some "None"⟩]⟩,
    ⟨"GetUserAddress", ["BaseModel"], [⟨"city", .name "str", none⟩]⟩],
   [], []⟩

/-- Fixture: an operation selecting only the meta-field at the operation root,
against a schema whose query root has no field at all. -/
def envTypenameRoot : GenEnv :=
  ⟨⟨some (fun _ => none), none⟩, fun _ => none, fun _ => none,
   ⟨some "Q", .query, [.field "__typename" none]⟩, "enums", fun _ => none, none⟩

/-- Fixture: a schema whose two query root fields a and b are both typed by
the enum Color. -/
def exSchemaEnum : Schema :=
  ⟨some (fun n =>
    if n = "a" then some (.name "Color")
    else if n = "b" then some (.name "Color") else none),
   none⟩

/-- Fixture: a generator input whose operation selects two Color-typed
fields, so the enum name is recorded twice. -/
def envEnumDup : GenEnv :=
  ⟨exSchemaEnum, fun _ => none, fun n => if n = "Color" then some .enum else none,
   ⟨some "GetColors", .query, [.field "a" none, .field "b" none]⟩,
   "enums", fun _ => none, none⟩

/-- Fixture: the generator state produced by running `mkGenerator` on
`envEnumDup`. -/
def stEnumDup : GenState :=
  ⟨["GetColors"],
   [⟨"GetColors", ["BaseModel"],
      [⟨"a", .name "Color", none⟩, ⟨"b", .name "Color", none⟩]⟩],
   ["Color", "Color"], []⟩

/-- Fixture: an operation without a name. -/
def envUnnamed : GenEnv :=
  ⟨exSchema, exFields, exCT, ⟨none, .query, [.field "user" none]⟩, "enums", fun _ => none, none⟩

/-- Fixture: an operation selecting a root field the schema does not have. -/
def envMissing : GenEnv :=
  ⟨exSchema, exFields, exCT, ⟨some "GetGhost", .query, [.field "ghost" none]⟩,
   "enums", fun _ => none, none⟩

/-- Fixture: a fragment table holding the fragment AddrFields on Address
selecting city. -/
def fragsEx : String → Option FragmentDef := fun n =>
  if n = "AddrFields" then some ⟨"Address", [.field "city" none]⟩ else none

deriving instance DecidableEq for Except

mutual
/-- On an annotation all of whose named-type leaves are quoted, the source's
rewriting agrees with the spec's leaf-wise, structure-preserving rewriting. -/
theorem addPrefixToAnn_eq_spec : ∀ (a : Ann) (pfx : String),
    allLeavesQuoted a = true → addPrefixToAnn a pfx = .ok (specRewriteAnn pfx a)
  | .name id, pfx, h => by
    simp only [allLeavesQuoted] at h
    simp [addPrefixToAnn, specRewriteAnn, h]
  | .subscriptTuple v elts, pfx, h => by
    simp only [allLeavesQuoted] at h
    simp [addPrefixToAnn, specRewriteAnn, addPrefixToAnnList_eq_spec elts pfx h]
  | .subscriptExpr v s, pfx, h => by
    simp only [allLeavesQuoted] at h
    simp [addPrefixToAnn, specRewriteAnn, addPrefixToAnn_eq_spec s pfx h]
  | .other, _, h => by simp [allLeavesQuoted] at h
/-- Element-wise version of `addPrefixToAnn_eq_spec` for tuple slices. -/
theorem addPrefixToAnnList_eq_spec : ∀ (l : AnnList) (pfx : String),
    allLeavesQuotedList l = true → addPrefixToAnnList l pfx = .ok (specRewriteAnnList pfx l)
  | .nil, pfx, _ => by simp [addPrefixToAnnList, specRewriteAnnList]
  | .cons a rest, pfx, h => by
    simp only [allLeavesQuotedList, Bool.and_eq_true] at h
    simp [addPrefixToAnnList, specRewriteAnnList, addPrefixToAnn_eq_spec a pfx h.1,
      addPrefixToAnnList_eq_spec rest pfx h.2]
end

/-- C1 (amended): for a field whose type expression contains at least one
OBJECT- or INTERFACE-classified extracted name, and all of whose named-type
leaves carry forward-reference quoting, `_procces_annotation` rewrites every
named-type leaf to the operation name prefixed to the original name,
preserving the quoting and leaving the optional/list/union wrapper structure
unchanged (the rewrite equals the spec-words rewriting `specRewriteAnn`), and
the used-enum accumulator is untouched.  The unamended claim, which also
covers unquoted named-type leaves, fails: there the source raises
ParsingError instead of rewriting (see the counterexample). -/
theorem c1_prefix_rewrite (class_types : String → Option ClassType) (qn : String)
    (ann : Ann) (ue : List String)
    (hobj : (walkAnn ann).any (isObjectOrInterface class_types) = true)
    (hq : allLeavesQuoted ann = true) :
    proccesAnn class_types qn ann (walkAnn ann) ue = .ok (specRewriteAnn qn ann, ue) := by
  simp [proccesAnn, hobj, addPrefixToAnn_eq_spec ann qn hq]

/-- C1 counterexample: with User classified OBJECT, the expression consisting
of the single unquoted named-type leaf User is not rewritten to a prefixed
name; `_procces_annotation` raises ParsingError("Invalid annotation type.")
instead. -/
theorem c1_counterexample :
    (walkAnn (Ann.name "User")).any (isObjectOrInterface exCT) = true ∧
    proccesAnn exCT "GetUser" (Ann.name "User") (walkAnn (Ann.name "User")) [] =
      .error (.parsingError "Invalid annotation type.") := by
  constructor
  · decide
  · rfl

/-- C1 witness: the amended claim applied to the quoted expression
Optional["User"]. -/
theorem c1_witness :
    proccesAnn exCT "GetUser" (Ann.subscriptExpr (.name "Optional") (.name "\"User\""))
      (walkAnn (Ann.subscriptExpr (.name "Optional") (.name "\"User\""))) [] =
      .ok (specRewriteAnn "GetUser" (Ann.subscriptExpr (.name "Optional") (.name "\"User\"")), []) :=
  c1_prefix_rewrite exCT "GetUser" _ [] (by decide) (by decide)

/-- An inline fragment whose type condition differs from the current root type
is skipped: resolution proceeds exactly as if it were absent. -/
theorem resolveSS_inline_skip (frags : String → Option FragmentDef) (root c : String)
    (fuel : Nat) (ss rest : List Selection) (used : List String) (h : c ≠ root) :
    resolveSS frags root fuel (.inlineFragment c ss :: rest) used =
      resolveSS frags root fuel rest used := by
  cases fuel <;> simp [resolveSS, resolveStep, h]

/-- C5: during selection-set resolution against a root type name, an inline
fragment whose type condition equals the root type name is flattened
recursively in place (its resolved fields stand exactly where the fragment
stood, before the fields of the remaining selections), and an inline fragment
whose type condition differs from the root type name contributes zero fields:
resolution is the same as with the fragment removed. -/
theorem c5_inline_fragments :
    (∀ (frags : String → Option FragmentDef) (root : String) (fuel : Nat)
       (ss rest : List Selection) (used u1 u2 : List String)
       (fs1 fs2 : List Selection),
       resolveSS frags root fuel ss used = .ok (fs1, u1) →
       resolveSS frags root (fuel + 1) rest u1 = .ok (fs2, u2) →
       resolveSS frags root (fuel + 1) (.inlineFragment root ss :: rest) used =
         .ok (fs1 ++ fs2, u2)) ∧
    (∀ (frags : String → Option FragmentDef) (root c : String) (fuel : Nat)
       (ss rest : List Selection) (used : List String), c ≠ root →
       resolveSS frags root fuel (.inlineFragment c ss :: rest) used =
         resolveSS frags root fuel rest used) := by
  constructor
  · intro frags root fuel ss rest used u1 u2 fs1 fs2 h1 h2
    simp only [resolveSS] at h2 ⊢
    simp [resolveStep, h1, h2]
  · exact fun frags root c fuel ss rest used h =>
      resolveSS_inline_skip frags root c fuel ss rest used h

/-- C5 witness: a matching inline fragment flattened in place, and a
non-matching one skipped, on concrete selection sets. -/
theorem c5_witness :
    resolveSS (fun _ => none) "User" 1
      [.inlineFragment "User" [.field "a" none], .field "b" none] [] =
      .ok ([.field "a" none] ++ [.field "b" none], []) ∧
    resolveSS (fun _ => none) "User" 1
      [.inlineFragment "Other" [.field "a" none], .field "b" none] [] =
      .ok ([.field "b" none], []) := by
  constructor
  · exact c5_inline_fragments.1 (fun _ => none) "User" 0 [.field "a" none] [.field "b" none]
      [] [] [] [.field "a" none] [.field "b" none] rfl rfl
  · rw [c5_inline_fragments.2 (fun _ => none) "User" "Other" 1 [.field "a" none]
      [.field "b" none] [] (by decide)]
    rfl

/-- One resolution pass distributes over concatenation of selection lists,
threading the used-fragments accumulator left to right. -/
theorem resolveStep_append (frags : String → Option FragmentDef) (root : String)
    (rec : List Selection → List String → Except GenError (List Selection × List String)) :
    ∀ (a b : List Selection) (used : List String),
    resolveStep frags root rec (a ++ b) used =
      match resolveStep frags root rec a used with
      | .error e => .error e
      | .ok (fs1, u1) =>
        match resolveStep frags root rec b u1 with
        | .error e => .error e
        | .ok (fs2, u2) => .ok (fs1 ++ fs2, u2) := by
  intro a
  induction a with
  | nil =>
    intro b used
    simp only [List.nil_append, resolveStep]
    cases h : resolveStep frags root rec b used with
    | error e => simp [h]
    | ok r => obtain ⟨fs, u⟩ := r; simp [h]
  | cons x rest ih =>
    intro b used
    cases x with
    | field n ss =>
      simp only [List.cons_append, List.append_eq, resolveStep, ih]
      cases h1 : resolveStep frags root rec rest used with
      | error e => simp [h1]
      | ok r1 =>
        obtain ⟨fs1, u1⟩ := r1
        cases h2 : resolveStep frags root rec b u1 with
        | error e => simp [h1, h2]
        | ok r2 => obtain ⟨fs2, u2⟩ := r2; simp [h1, h2]
    | fragmentSpread n =>
      simp only [List.cons_append, List.append_eq, resolveStep, ih]
      cases hf : frags n with
      | none => simp [hf]
      | some fd =>
        cases hr : rec fd.selectionSet (addUsedName used n) with
        | error e => simp [hf, hr]
        | ok r0 =>
          obtain ⟨g1, v1⟩ := r0
          cases h1 : resolveStep frags root rec rest v1 with
          | error e => simp [hf, hr, h1]
          | ok r1 =>
            obtain ⟨fs1, u1⟩ := r1
            cases h2 : resolveStep frags root rec b u1 with
            | error e => simp [hf, hr, h1, h2]
            | ok r2 => obtain ⟨fs2, u2⟩ := r2; simp [hf, hr, h1, h2]
    | inlineFragment c ss =>
      by_cases hc : c = root
      · simp only [List.cons_append, List.append_eq, resolveStep, if_pos hc, ih]
        cases hr : rec ss used with
        | error e => simp [hr]
        | ok r0 =>
          obtain ⟨g1, v1⟩ := r0
          cases h1 : resolveStep frags root rec rest v1 with
          | error e => simp [hr, h1]
          | ok r1 =>
            obtain ⟨fs1, u1⟩ := r1
            cases h2 : resolveStep frags root rec b u1 with
            | error e => simp [hr, h1, h2]
            | ok r2 => obtain ⟨fs2, u2⟩ := r2; simp [hr, h1, h2]
      · simp only [List.cons_append, List.append_eq, resolveStep, if_neg hc, ih]

/-- Full resolution distributes over concatenation of selection lists. -/
theorem resolveSS_append (frags : String → Option FragmentDef) (root : String)
    (fuel : Nat) (a b : List Selection) (used : List String) :
    resolveSS frags root fuel (a ++ b) used =
      match resolveSS frags root fuel a used with
      | .error e => .error e
      | .ok (fs1, u1) =>
        match resolveSS frags root fuel b u1 with
        | .error e => .error e
        | .ok (fs2, u2) => .ok (fs1 ++ fs2, u2) := by
  cases fuel <;> simp only [resolveSS] <;> exact resolveStep_append frags root _ a b used

/-- Adding a name to the used-fragments set keeps the existing members. -/
theorem addUsedName_mem_of_mem (used : List String) (n x : String) (hx : x ∈ used) :
    x ∈ addUsedName used n := by
  unfold addUsedName; split
  · exact hx
  · exact List.mem_append_left _ hx

/-- The added name is a member of the used-fragments set. -/
theorem mem_addUsedName_self (used : List String) (n : String) : n ∈ addUsedName used n := by
  unfold addUsedName; split
  · assumption
  · exact List.mem_append_right _ (List.mem_singleton.mpr rfl)

/-- One resolution pass only ever adds to the used-fragments set (provided the
recursive-descent function does). -/
theorem resolveStep_used_mono (frags : String → Option FragmentDef) (root : String)
    (rec : List Selection → List String → Except GenError (List Selection × List String))
    (hrec : ∀ l used fs u, rec l used = .ok (fs, u) → ∀ x, x ∈ used → x ∈ u) :
    ∀ (ss : List Selection) (used : List String) (fs : List Selection) (u : List String),
      resolveStep frags root rec ss used = .ok (fs, u) → ∀ x, x ∈ used → x ∈ u := by
  intro ss
  induction ss with
  | nil =>
    intro used fs u h x hx
    simp only [resolveStep, Except.ok.injEq, Prod.mk.injEq] at h
    obtain ⟨-, rfl⟩ := h
    exact hx
  | cons hd rest ih =>
    intro used fs u h x hx
    cases hd with
    | field n ss =>
      simp only [resolveStep] at h
      split at h
      · exact absurd h (by simp)
      · rename_i fs1 u1 heq
        simp only [Except.ok.injEq, Prod.mk.injEq] at h
        obtain ⟨-, rfl⟩ := h
        exact ih used fs1 u1 heq x hx
    | fragmentSpread n =>
      simp only [resolveStep] at h
      split at h
      · exact absurd h (by simp)
      · rename_i fd heqf
        split at h
        · exact absurd h (by simp)
        · rename_i g1 v1 heqr
          split at h
          · exact absurd h (by simp)
          · rename_i fs2 u2 heqs
            simp only [Except.ok.injEq, Prod.mk.injEq] at h
            obtain ⟨-, rfl⟩ := h
            exact ih v1 fs2 u2 heqs x
              (hrec fd.selectionSet (addUsedName used n) g1 v1 heqr x
                (addUsedName_mem_of_mem used n x hx))
    | inlineFragment c ss =>
      simp only [resolveStep] at h
      split at h
      · split at h
        · exact absurd h (by simp)
        · rename_i g1 v1 heqr
          split at h
          · exact absurd h (by simp)
          · rename_i fs2 u2 heqs
            simp only [Except.ok.injEq, Prod.mk.injEq] at h
            obtain ⟨-, rfl⟩ := h
            exact ih v1 fs2 u2 heqs x (hrec ss used g1 v1 heqr x hx)
      · exact ih used fs u h x hx

/-- Resolution only ever adds to the used-fragments set. -/
theorem resolveSS_used_mono (frags : String → Option FragmentDef) (root : String) :
    ∀ (fuel : Nat) (ss : List Selection) (used : List String) (fs : List Selection)
      (u : List String),
      resolveSS frags root fuel ss used = .ok (fs, u) → ∀ x, x ∈ used → x ∈ u := by
  intro fuel
  induction fuel with
  | zero =>
    intro ss used fs u h
    simp only [resolveSS] at h
    exact resolveStep_used_mono frags root _
      (by intro l used' fs' u' h'; exact absurd h' (by simp)) ss used fs u h
  | succ f ih =>
    intro ss used fs u h
    simp only [resolveSS] at h
    exact resolveStep_used_mono frags root _ ih ss used fs u h

/-- C6: a fragment spread is flattened in place: the fields of the fragment's
selection set stand in the resolved sequence exactly between the fields of the
selections before and after the spread, in source order, and the fragment's
name is recorded in the used-fragments set. -/
theorem c6_fragment_spread (frags : String → Option FragmentDef) (root : String)
    (fuel : Nat) (pre post : List Selection) (n : String) (fd : FragmentDef)
    (used u1 u2 u3 : List String) (fsPre fsFrag fsPost : List Selection)
    (hfd : frags n = some fd)
    (h1 : resolveSS frags root (fuel + 1) pre used = .ok (fsPre, u1))
    (h2 : resolveSS frags root fuel fd.selectionSet (addUsedName u1 n) = .ok (fsFrag, u2))
    (h3 : resolveSS frags root (fuel + 1) post u2 = .ok (fsPost, u3)) :
    resolveSS frags root (fuel + 1) (pre ++ .fragmentSpread n :: post) used =
      .ok (fsPre ++ (fsFrag ++ fsPost), u3) ∧ n ∈ u3 := by
  have hmid : resolveSS frags root (fuel + 1) (.fragmentSpread n :: post) u1 =
      .ok (fsFrag ++ fsPost, u3) := by
    simp only [resolveSS] at h3 ⊢
    simp only [resolveStep, hfd, h2, h3]
  constructor
  · rw [resolveSS_append frags root (fuel + 1) pre (.fragmentSpread n :: post) used, h1]
    simp [hmid]
  · exact resolveSS_used_mono frags root (fuel + 1) post u2 fsPost u3 h3 n
      (resolveSS_used_mono frags root fuel fd.selectionSet (addUsedName u1 n) fsFrag u2 h2 n
        (mem_addUsedName_self u1 n))

/-- C6 witness: the fragment AddrFields spread between two field selections,
resolved on concrete inputs. -/
theorem c6_witness :
    resolveSS fragsEx "Address" 1
      ([.field "id" none] ++ .fragmentSpread "AddrFields" :: [.field "zip" none]) [] =
      .ok ([.field "id" none] ++ ([.field "city" none] ++ [.field "zip" none]),
        ["AddrFields"]) ∧ "AddrFields" ∈ ["AddrFields"] :=
  c6_fragment_spread fragsEx "Address" 0 [.field "id" none] [.field "zip" none]
    "AddrFields" ⟨"Address", [.field "city" none]⟩ [] [] ["AddrFields"] ["AddrFields"]
    [.field "id" none] [.field "city" none] [.field "zip" none] rfl rfl rfl rfl

/-- Dropping a non-matching root inline fragment does not change the parse:
the root selection set is resolved against the empty-string root type, so an
inline fragment with a non-empty type condition never matches there. -/
theorem parse_query_root_inline (env : GenEnv) (qn : String) (fuel : Nat) (tc : String)
    (ss rest : List Selection) (h : tc ≠ "") :
    parse_query { env with query := { env.query with
        selectionSet := .inlineFragment tc ss :: rest } } qn fuel =
      parse_query { env with query := { env.query with selectionSet := rest } } qn fuel := by
  simp only [parse_query]
  rw [resolveSS_inline_skip env.fragments_definitions "" tc fuel ss rest
    ([] : List String) h]

/-- C10: the operation's root selection set is resolved with the empty string
as root type name, so an inline fragment directly under the operation root
contributes zero fields whatever its (non-empty) type condition: resolution,
and the whole generator run, behave exactly as if the fragment were absent. -/
theorem c10_root_inline_dropped :
    (∀ (frags : String → Option FragmentDef) (fuel : Nat) (tc : String)
       (ss rest : List Selection) (used : List String), tc ≠ "" →
       resolveSS frags "" fuel (.inlineFragment tc ss :: rest) used =
         resolveSS frags "" fuel rest used) ∧
    (∀ (env : GenEnv) (fuel : Nat) (tc : String) (ss rest : List Selection), tc ≠ "" →
       mkGenerator { env with query := { env.query with
           selectionSet := .inlineFragment tc ss :: rest } } fuel =
         mkGenerator { env with query := { env.query with selectionSet := rest } } fuel) := by
  constructor
  · exact fun frags fuel tc ss rest used h =>
      resolveSS_inline_skip frags "" tc fuel ss rest used h
  · intro env fuel tc ss rest h
    show (match env.query.name with
      | none => Except.error (GenError.notSupported "Queries without name are not supported.")
      | some qn => parse_query { env with query := { env.query with
          selectionSet := .inlineFragment tc ss :: rest } } qn fuel) =
      (match env.query.name with
      | none => Except.error (GenError.notSupported "Queries without name are not supported.")
      | some qn => parse_query { env with query := { env.query with
          selectionSet := rest } } qn fuel)
    cases env.query.name with
    | none => rfl
    | some qn => exact parse_query_root_inline env qn fuel tc ss rest h

/-- C10 witness: prepending an inline fragment with type condition User to the
root selection set of the running example leaves the generator run unchanged. -/
theorem c10_witness :
    mkGenerator { exEnv with query := { exEnv.query with
        selectionSet := .inlineFragment "User" [.field "id" none] :: exEnv.query.selectionSet } } 9 =
      mkGenerator { exEnv with query := { exEnv.query with
        selectionSet := exEnv.query.selectionSet } } 9 :=
  c10_root_inline_dropped.2 exEnv 9 "User" [.field "id" none] exEnv.query.selectionSet
    (by decide)

/-- The names contributed by one synthesizer result, seen through the
`if dependencies_defs:` guard. -/
theorem depNames_getD (res : Option (List ClassDef)) :
    (res.getD []).map (fun c => c.name) = depNames res := by
  cases res <;> rfl

/-- The dependency loop appends to `public_names` exactly the names of the
definitions it returns, and preserves freedom from duplicates, provided each
synthesizer call does. -/
theorem depLoopF_inv
    (g : String → List Selection → GenState → Except GenError (Option (List ClassDef) × GenState))
    (hg : ∀ tn ss st res st', g tn ss st = .ok (res, st') →
      st'.public_names = st.public_names ++ depNames res ∧
      (st.public_names.Nodup → st'.public_names.Nodup)) :
    ∀ (ftns : List String) (sub : List Selection) (st : GenState) (extras : List ClassDef)
      (st' : GenState), depLoopF g ftns sub st = .ok (extras, st') →
      st'.public_names = st.public_names ++ extras.map (fun c => c.name) ∧
      (st.public_names.Nodup → st'.public_names.Nodup) := by
  intro ftns
  induction ftns with
  | nil =>
    intro sub st extras st' h
    simp only [depLoopF, Except.ok.injEq, Prod.mk.injEq] at h
    obtain ⟨rfl, rfl⟩ := h
    simp
  | cons tn rest ih =>
    intro sub st extras st' h
    simp only [depLoopF] at h
    split at h
    · simp at h
    · rename_i res st1 heq1
      split at h
      · simp at h
      · rename_i ex2 st2 heq2
        simp only [Except.ok.injEq, Prod.mk.injEq] at h
        obtain ⟨rfl, rfl⟩ := h
        obtain ⟨e1, n1⟩ := hg tn sub st res st1 heq1
        obtain ⟨e2, n2⟩ := ih sub st1 ex2 st2 heq2
        constructor
        · simp [e2, e1, List.map_append, depNames_getD]
        · exact fun hnd => n2 (n1 hnd)

/-- The nested-class field loop appends to `public_names` exactly the names of
the dependency definitions it accumulates, and preserves freedom from
duplicates, provided each synthesizer call does. -/
theorem genFieldsF_inv (fields : String → Option (String → Option FieldDef))
    (class_types : String → Option ClassType) (qn : String)
    (g : String → List Selection → GenState → Except GenError (Option (List ClassDef) × GenState))
    (tnm : String)
    (hg : ∀ tn ss st res st', g tn ss st = .ok (res, st') →
      st'.public_names = st.public_names ++ depNames res ∧
      (st.public_names.Nodup → st'.public_names.Nodup)) :
    ∀ (rfields : List Selection) (st : GenState) (body : List FieldDef)
      (extras : List ClassDef) (st' : GenState),
      genFieldsF fields class_types qn g tnm rfields st = .ok (body, extras, st') →
      st'.public_names = st.public_names ++ extras.map (fun c => c.name) ∧
      (st.public_names.Nodup → st'.public_names.Nodup) := by
  intro rfields
  induction rfields with
  | nil =>
    intro st body extras st' h
    simp only [genFieldsF, Except.ok.injEq, Prod.mk.injEq] at h
    obtain ⟨rfl, rfl, rfl⟩ := h
    simp
  | cons hd rest ih =>
    intro st body extras st' h
    cases hd with
    | field n ss =>
      simp only [genFieldsF] at h
      split at h
      · simp at h
      · rename_i orig heq0
        split at h
        · simp at h
        · rename_i ann2 enums2 heq1
          split at h
          · split at h
            · simp at h
            · rename_i body2 ex2 st2 heq2
              simp only [Except.ok.injEq, Prod.mk.injEq] at h
              obtain ⟨rfl, rfl, rfl⟩ := h
              obtain ⟨e2, n2⟩ := ih _ _ _ _ heq2
              exact ⟨e2, n2⟩
          · rename_i sub
            split at h
            · simp at h
            · rename_i ex1 st2 heq2
              split at h
              · simp at h
              · rename_i body3 ex3 st3 heq3
                simp only [Except.ok.injEq, Prod.mk.injEq] at h
                obtain ⟨rfl, rfl, rfl⟩ := h
                obtain ⟨e1, n1⟩ := depLoopF_inv g hg _ _ _ _ _ heq2
                obtain ⟨e2, n2⟩ := ih _ _ _ _ heq3
                constructor
                · simp [e2, e1, List.map_append]
                · exact fun hnd => n2 (n1 hnd)
    | fragmentSpread n => simp only [genFieldsF] at h; simp at h
    | inlineFragment c ss => simp only [genFieldsF] at h; simp at h

/-- The root field loop appends to `public_names` exactly the names of the
dependency definitions it accumulates, and preserves freedom from duplicates,
provided each synthesizer call does. -/
theorem rootFieldsLoop_inv (schema : Schema) (op : OperationType)
    (class_types : String → Option ClassType) (qn : String)
    (g : String → List Selection → GenState → Except GenError (Option (List ClassDef) × GenState))
    (hg : ∀ tn ss st res st', g tn ss st = .ok (res, st') →
      st'.public_names = st.public_names ++ depNames res ∧
      (st.public_names.Nodup → st'.public_names.Nodup)) :
    ∀ (rfields : List Selection) (st : GenState) (body : List FieldDef)
      (extras : List ClassDef) (st' : GenState),
      rootFieldsLoop schema op class_types qn g rfields st = .ok (body, extras, st') →
      st'.public_names = st.public_names ++ extras.map (fun c => c.name) ∧
      (st.public_names.Nodup → st'.public_names.Nodup) := by
  intro rfields
  induction rfields with
  | nil =>
    intro st body extras st' h
    simp only [rootFieldsLoop, Except.ok.injEq, Prod.mk.injEq] at h
    obtain ⟨rfl, rfl, rfl⟩ := h
    simp
  | cons hd rest ih =>
    intro st body extras st' h
    cases hd with
    | field n ss =>
      simp only [rootFieldsLoop] at h
      split at h
      · simp at h
      · rename_i t heq0
        split at h
        · simp at h
        · rename_i ann2 enums2 heq1
          split at h
          · split at h
            · simp at h
            · rename_i body2 ex2 st2 heq2
              simp only [Except.ok.injEq, Prod.mk.injEq] at h
              obtain ⟨rfl, rfl, rfl⟩ := h
              obtain ⟨e2, n2⟩ := ih _ _ _ _ heq2
              exact ⟨e2, n2⟩
          · rename_i sub
            split at h
            · simp at h
            · rename_i ex1 st2 heq2
              split at h
              · simp at h
              · rename_i body3 ex3 st3 heq3
                simp only [Except.ok.injEq, Prod.mk.injEq] at h
                obtain ⟨rfl, rfl, rfl⟩ := h
                obtain ⟨e1, n1⟩ := depLoopF_inv g hg _ _ _ _ _ heq2
                obtain ⟨e2, n2⟩ := ih _ _ _ _ heq3
                constructor
                · simp [e2, e1, List.map_append]
                · exact fun hnd => n2 (n1 hnd)
    | fragmentSpread n => simp only [rootFieldsLoop] at h; simp at h
    | inlineFragment c ss => simp only [rootFieldsLoop] at h; simp at h

/-- The dependency synthesizer appends to `public_names` exactly the names of
the definitions it returns, and preserves freedom from duplicates (the
candidate name is checked against `public_names` before registration). -/
theorem genDep_inv (frags : String → Option FragmentDef)
    (fields : String → Option (String → Option FieldDef))
    (class_types : String → Option ClassType) (qn : String) :
    ∀ (fuel : Nat) (tn : String) (ss : List Selection) (st : GenState)
      (res : Option (List ClassDef)) (st' : GenState),
      genDep frags fields class_types qn fuel tn ss st = .ok (res, st') →
      st'.public_names = st.public_names ++ depNames res ∧
      (st.public_names.Nodup → st'.public_names.Nodup) := by
  intro fuel
  induction fuel with
  | zero =>
    intro tn ss st res st' h
    simp only [genDep] at h
    split at h
    · simp only [Except.ok.injEq, Prod.mk.injEq] at h
      obtain ⟨rfl, rfl⟩ := h
      simp [depNames]
    · simp at h
  | succ f ih =>
    intro tn ss st res st' h
    simp only [genDep] at h
    split at h
    · simp only [Except.ok.injEq, Prod.mk.injEq] at h
      obtain ⟨rfl, rfl⟩ := h
      simp [depNames]
    · rename_i hreg
      split at h
      · simp at h
      · rename_i rfields uf heqr
        split at h
        · simp at h
        · rename_i body extras st2 heqf
          simp only [Except.ok.injEq, Prod.mk.injEq] at h
          obtain ⟨rfl, rfl⟩ := h
          obtain ⟨e1, n1⟩ := genFieldsF_inv fields class_types qn _ tn ih _ _ _ _ _ heqf
          constructor
          · simp [e1, depNames]
          · intro hnd
            apply n1
            rw [List.nodup_append]
            exact ⟨hnd, List.nodup_singleton _, by simp [List.disjoint_singleton, hreg]⟩

/-- After a successful parse, the emitted class names are exactly the
registered public names, and they are free of duplicates. -/
theorem parse_query_names (env : GenEnv) (qn : String) (fuel : Nat) (st : GenState)
    (h : parse_query env qn fuel = .ok st) :
    st.class_defs.map (fun c => c.name) = st.public_names ∧ st.public_names.Nodup := by
  simp only [parse_query] at h
  split at h
  · simp at h
  · rename_i rfields uf heqr
    split at h
    · simp at h
    · rename_i body extras st1 heqf
      simp only [Except.ok.injEq] at h
      subst h
      obtain ⟨e1, n1⟩ := rootFieldsLoop_inv env.schema env.query.operation env.class_types qn
        _ (genDep_inv env.fragments_definitions env.fields env.class_types qn fuel)
        _ _ _ _ _ heqf
      constructor
      · simp [e1]
      · exact n1 (by simp)

/-- C2: within one generation run no two emitted output type definitions share
a name, and invoking the dependency synthesizer for a candidate name that is
already registered produces zero additional definitions and leaves the state
untouched (the name is skipped, not regenerated). -/
theorem c2_name_uniqueness :
    (∀ (env : GenEnv) (fuel : Nat) (st : GenState), mkGenerator env fuel = .ok st →
       (st.class_defs.map (fun c => c.name)).Nodup) ∧
    (∀ (frags : String → Option FragmentDef)
       (fields : String → Option (String → Option FieldDef))
       (class_types : String → Option ClassType) (qn : String) (fuel : Nat)
       (tn : String) (ss : List Selection) (st : GenState),
       qn ++ tn ∈ st.public_names →
       genDep frags fields class_types qn fuel tn ss st = .ok (none, st)) := by
  constructor
  · intro env fuel st h
    simp only [mkGenerator] at h
    split at h
    · exact absurd h (by simp)
    · rename_i qn hq
      obtain ⟨e, n⟩ := parse_query_names env qn fuel st h
      rw [e]
      exact n
  · intro frags fields class_types qn fuel tn ss st hmem
    cases fuel <;> simp [genDep, hmem]

/-- C2 witness: the running example's emitted names are duplicate-free, and a
dependency call for the already registered name GetUserUser returns no
definitions. -/
theorem c2_witness :
    (stEx.class_defs.map (fun c => c.name)).Nodup ∧
    genDep (fun _ => none) exFields exCT "GetUser" 5 "User" [.field "id" none]
      ⟨["GetUser", "GetUserUser"], [], [], []⟩ =
      .ok (none, ⟨["GetUser", "GetUserUser"], [], [], []⟩) :=
  ⟨c2_name_uniqueness.1 exEnv 9 stEx rfl,
   c2_name_uniqueness.2 (fun _ => none) exFields exCT "GetUser" 5 "User" [.field "id" none]
     ⟨["GetUser", "GetUserUser"], [], [], []⟩ (by decide)⟩

/-- C3 (amended): at any nested level (inside a dependency class), a selection
on the meta-field `__typename` never consults the Schema Field Registry — the
result is the same synthesized definition for every registry, including the
empty one — and always yields a string-typed output field.  At the operation
root the claim fails: the root field loop looks every selected field, the
meta-field included, up in the schema root type (see the counterexample). -/
theorem c3_typename_nested (fields : String → Option (String → Option FieldDef))
    (tnm : String) :
    get_schema_field_definition fields tnm "__typename" =
      .ok generate_typename_field_definition ∧
    generate_typename_field_definition.ann = Ann.name "str" :=
  ⟨rfl, rfl⟩

/-- C3 counterexample: a `__typename` selection directly under the operation
root triggers the schema root-type lookup and, the root type having no such
field, generation fails with ParsingError instead of yielding a string-typed
field. -/
theorem c3_counterexample :
    mkGenerator envTypenameRoot 3 =
      .error (.parsingError "Definition for __typename not found in schema.") := rfl

/-- C4 (amended): the emitted module contains the enum-module import exactly
when at least one ENUM-classified name was recorded, and that import lists the
recorded enum names in extraction order with multiplicity — an enum extracted
from several fields is listed once per extraction, not at most once (see the
counterexample); a field expression containing no OBJECT- or
INTERFACE-classified name is left unmodified and contributes exactly its
ENUM-classified extracted names, in order, to the record. -/
theorem c4_enum_import :
    (∀ (env : GenEnv) (st : GenState), st.used_enums ≠ [] →
       generate env st =
         (baseImports env ++
           [(⟨st.used_enums, env.enums_module_name, 1⟩ : ImportFrom)]).map
             Stmt.fromImport ++
         st.class_defs.map Stmt.classDef ++
         st.class_defs.map (fun c => Stmt.updateForwardRefs c.name)) ∧
    (∀ (env : GenEnv) (st : GenState), st.used_enums = [] →
       generate env st =
         (baseImports env).map Stmt.fromImport ++ st.class_defs.map Stmt.classDef ++
         st.class_defs.map (fun c => Stmt.updateForwardRefs c.name)) ∧
    (∀ (class_types : String → Option ClassType) (qn : String) (ann : Ann)
       (ue : List String),
       (walkAnn ann).any (isObjectOrInterface class_types) = false →
       proccesAnn class_types qn ann (walkAnn ann) ue =
         .ok (ann, ue ++ (walkAnn ann).filter (fun n => class_types n == some ClassType.enum))) := by
  refine ⟨?_, ?_, ?_⟩
  · intro env st h
    simp [generate, List.isEmpty_iff, h]
  · intro env st h
    simp [generate, h]
  · intro class_types qn ann ue h
    simp [proccesAnn, h]

/-- C4 counterexample: an enum referenced by two fields is recorded twice and
the emitted enum import lists it twice — the import does not list a set with
each name at most once. -/
theorem c4_counterexample :
    mkGenerator envEnumDup 3 = .ok stEnumDup ∧
    stEnumDup.used_enums = ["Color", "Color"] ∧
    Stmt.fromImport ⟨["Color", "Color"], "enums", 1⟩ ∈ generate envEnumDup stEnumDup ∧
    ¬ (["Color", "Color"] : List String).Nodup :=
  ⟨rfl, rfl, by decide, by decide⟩

/-- C4 witness: the amended claim applied to the duplicated-enum run and to a
concrete enum-typed field expression. -/
theorem c4_witness :
    generate envEnumDup stEnumDup =
      (baseImports envEnumDup ++
        [(⟨stEnumDup.used_enums, envEnumDup.enums_module_name, 1⟩ : ImportFrom)]).map
        Stmt.fromImport ++
      stEnumDup.class_defs.map Stmt.classDef ++
      stEnumDup.class_defs.map (fun c => Stmt.updateForwardRefs c.name) ∧
    proccesAnn envEnumDup.class_types "GetColors" (Ann.name "Color")
      (walkAnn (Ann.name "Color")) [] =
      .ok (Ann.name "Color",
        [] ++ (walkAnn (Ann.name "Color")).filter
          (fun n => envEnumDup.class_types n == some ClassType.enum)) :=
  ⟨c4_enum_import.1 envEnumDup stEnumDup (by decide),
   c4_enum_import.2.2 envEnumDup.class_types "GetColors" (Ann.name "Color") [] (by decide)⟩

/-- C7: an operation without a name is rejected in the constructor with the
NotSupported error, before any parsing or type synthesis happens, so the
generator produces zero type definitions. -/
theorem c7_unnamed_rejected (env : GenEnv) (fuel : Nat) (h : env.query.name = none) :
    mkGenerator env fuel =
      .error (.notSupported "Queries without name are not supported.") := by
  simp [mkGenerator, h]

/-- C7 witness: the unnamed-operation fixture is rejected. -/
theorem c7_witness :
    mkGenerator envUnnamed 5 =
      .error (.notSupported "Queries without name are not supported.") :=
  c7_unnamed_rejected envUnnamed 5 rfl

/-- If any resolved root field has no schema root counterpart, the root field
loop fails with some error (the failing field's own lookup error, or an error
hit even earlier). -/
theorem rootFieldsLoop_missing_err (schema : Schema) (op : OperationType)
    (class_types : String → Option ClassType) (qn : String)
    (g : String → List Selection → GenState → Except GenError (Option (List ClassDef) × GenState)) :
    ∀ (rfields : List Selection) (st : GenState) (n : String) (ss : Option (List Selection)),
      Selection.field n ss ∈ rfields →
      (∀ t, get_field_type_from_schema schema op n ≠ .ok t) →
      ∃ e, rootFieldsLoop schema op class_types qn g rfields st = .error e := by
  intro rfields
  induction rfields with
  | nil => intro st n ss hmem hfail; simp at hmem
  | cons hd rest ih =>
    intro st n ss hmem hfail
    rcases List.mem_cons.mp hmem with heq | hmem'
    · subst heq
      cases hlk : get_field_type_from_schema schema op n with
      | ok t => exact absurd hlk (hfail t)
      | error e => exact ⟨e, by simp [rootFieldsLoop, hlk]⟩
    · cases hd with
      | field m ss2 =>
        cases hlk : get_field_type_from_schema schema op m with
        | error e => exact ⟨e, by simp [rootFieldsLoop, hlk]⟩
        | ok t =>
          cases hp : proccesAnn class_types qn t (walkAnn t) st.used_enums with
          | error e => exact ⟨e, by simp [rootFieldsLoop, hlk, hp]⟩
          | ok pr =>
            obtain ⟨ann2, enums2⟩ := pr
            cases ss2 with
            | none =>
              obtain ⟨e, he⟩ := ih { st with used_enums := enums2 } n ss hmem' hfail
              exact ⟨e, by simp [rootFieldsLoop, hlk, hp, he]⟩
            | some sub =>
              cases hdl : depLoopF g (walkAnn t) sub { st with used_enums := enums2 } with
              | error e => exact ⟨e, by simp [rootFieldsLoop, hlk, hp, hdl]⟩
              | ok r =>
                obtain ⟨ex1, st2⟩ := r
                obtain ⟨e, he⟩ := ih st2 n ss hmem' hfail
                exact ⟨e, by simp [rootFieldsLoop, hlk, hp, hdl, he]⟩
      | fragmentSpread m => exact ⟨.attributeError, by simp [rootFieldsLoop]⟩
      | inlineFragment c ss2 => exact ⟨.attributeError, by simp [rootFieldsLoop]⟩

/-- If any resolved field of a dependency class has no registry definition,
the field loop fails with some error. -/
theorem genFieldsF_missing_err (fields : String → Option (String → Option FieldDef))
    (class_types : String → Option ClassType) (qn : String)
    (g : String → List Selection → GenState → Except GenError (Option (List ClassDef) × GenState))
    (tnm : String) :
    ∀ (rfields : List Selection) (st : GenState) (n : String) (ss : Option (List Selection)),
      Selection.field n ss ∈ rfields →
      (∀ fd, get_schema_field_definition fields tnm n ≠ .ok fd) →
      ∃ e, genFieldsF fields class_types qn g tnm rfields st = .error e := by
  intro rfields
  induction rfields with
  | nil => intro st n ss hmem hfail; simp at hmem
  | cons hd rest ih =>
    intro st n ss hmem hfail
    rcases List.mem_cons.mp hmem with heq | hmem'
    · subst heq
      cases hlk : get_schema_field_definition fields tnm n with
      | ok fd => exact absurd hlk (hfail fd)
      | error e => exact ⟨e, by simp [genFieldsF, hlk]⟩
    · cases hd with
      | field m ss2 =>
        cases hlk : get_schema_field_definition fields tnm m with
        | error e => exact ⟨e, by simp [genFieldsF, hlk]⟩
        | ok orig =>
          cases hp : proccesAnn class_types qn orig.ann (walkAnn orig.ann) st.used_enums with
          | error e => exact ⟨e, by simp [genFieldsF, hlk, hp]⟩
          | ok pr =>
            obtain ⟨ann2, enums2⟩ := pr
            cases ss2 with
            | none =>
              obtain ⟨e, he⟩ := ih { st with used_enums := enums2 } n ss hmem' hfail
              exact ⟨e, by simp [genFieldsF, hlk, hp, he]⟩
            | some sub =>
              cases hdl : depLoopF g (walkAnn orig.ann) sub { st with used_enums := enums2 } with
              | error e => exact ⟨e, by simp [genFieldsF, hlk, hp, hdl]⟩
              | ok r =>
                obtain ⟨ex1, st2⟩ := r
                obtain ⟨e, he⟩ := ih st2 n ss hmem' hfail
                exact ⟨e, by simp [genFieldsF, hlk, hp, hdl, he]⟩
      | fragmentSpread m => exact ⟨.attributeError, by simp [genFieldsF]⟩
      | inlineFragment c ss2 => exact ⟨.attributeError, by simp [genFieldsF]⟩

/-- C8: a selected field with no corresponding schema field definition aborts
generation with an error, both at the operation root (no root type field:
whole-run failure, so no module is emitted) and at a nested level (no Schema
Field Registry entry: the dependency synthesis fails). -/
theorem c8_missing_schema_field :
    (∀ (env : GenEnv) (fuel : Nat) (rfields : List Selection) (uf : List String)
       (n : String) (ss : Option (List Selection)),
       resolveSS env.fragments_definitions "" fuel env.query.selectionSet [] =
         .ok (rfields, uf) →
       Selection.field n ss ∈ rfields →
       (∀ t, get_field_type_from_schema env.schema env.query.operation n ≠ .ok t) →
       ∃ e, mkGenerator env fuel = .error e) ∧
    (∀ (frags : String → Option FragmentDef)
       (fields : String → Option (String → Option FieldDef))
       (class_types : String → Option ClassType) (qn : String) (fuel : Nat)
       (tnm : String) (sels : List Selection) (st : GenState)
       (rfields : List Selection) (uf : List String) (n : String)
       (ss : Option (List Selection)),
       qn ++ tnm ∉ st.public_names →
       resolveSS frags tnm (fuel + 1) sels st.used_fragments_names = .ok (rfields, uf) →
       Selection.field n ss ∈ rfields →
       (∀ fd, get_schema_field_definition fields tnm n ≠ .ok fd) →
       ∃ e, genDep frags fields class_types qn (fuel + 1) tnm sels st = .error e) := by
  constructor
  · intro env fuel rfields uf n ss hres hmem hfail
    simp only [mkGenerator]
    cases hq : env.query.name with
    | none => exact ⟨_, rfl⟩
    | some qn =>
      obtain ⟨e, he⟩ := rootFieldsLoop_missing_err env.schema env.query.operation
        env.class_types qn
        (genDep env.fragments_definitions env.fields env.class_types qn fuel)
        rfields ⟨[qn], [], [], uf⟩ n ss hmem hfail
      exact ⟨e, by simp [parse_query, hres, he]⟩
  · intro frags fields class_types qn fuel tnm sels st rfields uf n ss hreg hres hmem hfail
    obtain ⟨e, he⟩ := genFieldsF_missing_err fields class_types qn
      (genDep frags fields class_types qn fuel) tnm rfields
      ⟨st.public_names ++ [qn ++ tnm], st.class_defs, st.used_enums, uf⟩ n ss hmem hfail
    exact ⟨e, by simp [genDep, hreg, hres, he]⟩

/-- C8 witness: the root field ghost is missing from the schema and generation
fails; a nested field x missing from an empty registry makes the dependency
synthesis fail. -/
theorem c8_witness :
    (∃ e, mkGenerator envMissing 3 = .error e) ∧
    (∃ e, genDep (fun _ => none) (fun _ => none) (fun _ => none) "Q" 1 "T"
      [.field "x" none] ⟨["Q"], [], [], []⟩ = .error e) :=
  ⟨c8_missing_schema_field.1 envMissing 3 [.field "ghost" none] [] "ghost" none rfl
    (List.mem_singleton.mpr rfl) (fun t h => Except.noConfusion h),
   c8_missing_schema_field.2 (fun _ => none) (fun _ => none) (fun _ => none) "Q" 0 "T"
    [.field "x" none] ⟨["Q"], [], [], []⟩ [.field "x" none] [] "x" none (by decide) rfl
    (List.mem_singleton.mpr rfl) (fun fd h => Except.noConfusion h)⟩

/-- C9: the emitted module is the imports, then every output type definition
in the order produced — a successful parse puts the root definition, named
exactly after the operation, first, and every successful dependency-synthesis
result starts with the class named after its own type, its dependencies
after — and, after all type bodies, exactly one forward-reference finalization
call per emitted type, in the same order. -/
theorem c9_module_layout :
    (∀ (env : GenEnv) (st : GenState), ∃ imps : List ImportFrom,
       generate env st = imps.map Stmt.fromImport ++ st.class_defs.map Stmt.classDef ++
         st.class_defs.map (fun c => Stmt.updateForwardRefs c.name)) ∧
    (∀ (env : GenEnv) (qn : String) (fuel : Nat) (st : GenState),
       parse_query env qn fuel = .ok st →
       ∃ body extras,
         st.class_defs = { name := qn, bases := ["BaseModel"], body := body } :: extras) ∧
    (∀ (frags : String → Option FragmentDef)
       (fields : String → Option (String → Option FieldDef))
       (class_types : String → Option ClassType) (qn : String) (fuel : Nat)
       (tnm : String) (sels : List Selection) (st : GenState) (defs : List ClassDef)
       (st' : GenState),
       genDep frags fields class_types qn fuel tnm sels st = .ok (some defs, st') →
       ∃ body extras,
         defs = { name := qn ++ tnm, bases := ["BaseModel"], body := body } :: extras) := by
  refine ⟨?_, ?_, ?_⟩
  · intro env st
    refine ⟨baseImports env ++
      (if st.used_enums.isEmpty then []
       else [(⟨st.used_enums, env.enums_module_name, 1⟩ : ImportFrom)]), ?_⟩
    simp [generate]
  · intro env qn fuel st h
    simp only [parse_query] at h
    split at h
    · simp at h
    · rename_i rfields uf heqr
      split at h
      · simp at h
      · rename_i body extras st1 heqf
        simp only [Except.ok.injEq] at h
        subst h
        exact ⟨body, extras, rfl⟩
  · intro frags fields class_types qn fuel tnm sels st defs st' h
    cases fuel with
    | zero =>
      simp only [genDep] at h
      split at h
      · simp at h
      · simp at h
    | succ f =>
      simp only [genDep] at h
      split at h
      · simp at h
      · split at h
        · simp at h
        · rename_i rfields uf heqr
          split at h
          · simp at h
          · rename_i body extras st2 heqf
            simp only [Except.ok.injEq, Prod.mk.injEq, Option.some.injEq] at h
            obtain ⟨rfl, rfl⟩ := h
            exact ⟨body, extras, rfl⟩

/-- C9 witness: the layout of the running example's module, the root-first
shape of its parse, and the dependency-first shape of a concrete synthesis. -/
theorem c9_witness :
    (∃ imps : List ImportFrom,
       generate exEnv stEx = imps.map Stmt.fromImport ++ stEx.class_defs.map Stmt.classDef ++
         stEx.class_defs.map (fun c => Stmt.updateForwardRefs c.name)) ∧
    (∃ body extras,
       stEx.class_defs =
         { name := "GetUser", bases := ["BaseModel"], body := body } :: extras) ∧
    (∃ body extras,
       [({ name := "GetUserUser", bases := ["BaseModel"],
           body := [⟨"id", .name "str", none⟩] } : ClassDef)] =
         { name := "GetUser" ++ "User", bases := ["BaseModel"], body := body } :: extras) :=
  ⟨c9_module_layout.1 exEnv stEx,
   c9_module_layout.2.1 exEnv "GetUser" 9 stEx rfl,
   c9_module_layout.2.2 (fun _ => none) exFields exCT "GetUser" 8 "User"
     [.field "id" none] ⟨["GetUser"], [], [], []⟩
     [{ name := "GetUserUser", bases := ["BaseModel"], body := [⟨"id", .name "str", none⟩] }]
     ⟨["GetUser", "GetUserUser"], [], [], []⟩ rfl⟩
